import Mathlib

/-!
# MWT.h: the client interface of the exploration engine and of the reward reporter

A shallow embedding of `src/explore/static/MWT.h`.

* `MWTRewardReporter` (lines 264-316): its constructor and both `ReportReward` overloads.
* `MWTExplorer` (lines 15-258): the constructor, the `Initialize_*` family,
  `Compute_Seed`, `Choose_Action` and `Choose_Action_And_Key`.

Conventions.

* `u32` and `u64` values are natural numbers; every place where the C++ wraps or truncates
  carries an explicit `% 2 ^ 32` or `% 2 ^ 64`.
* A `float` is only ever copied by this header, never computed with; it is represented by the
  rational number it denotes.
* A pointer to an `Interaction` is `none` (the null pointer) or `some a`, the address `a` of an
  object in a heap that is passed explicitly.
* Dereferencing a null pointer and reading an array past its end make a function return `none`.
* `Explorer.h` and `hash.h` are not part of the sources at hand: the virtual
  `Explorer::Choose_Action`, `uniform_hash` and the constant `NO_JOIN_KEY` are parameters of
  the embedding (structure `Externals`), and the small record types they declare are stated
  from the specification.
-/

namespace MWT

/-! ## Types declared in `Explorer.h` -/

/-- Modelled from the spec: a `float` value. `MWT.h` stores and copies floats without doing
arithmetic on them, so the carrier is the rational the float denotes. -/
abbrev F32 := ℚ

/-- Modelled from the spec: the `Context` class of `Explorer.h`, an uninterpreted feature
bundle; it is represented by the list of its feature values. -/
abbrev Context := List Nat

/-- Modelled from the spec: the `MWTAction` class of `Explorer.h`, a wrapper around a `u32`
action id. -/
structure MWTAction where
  m_id : Nat
deriving DecidableEq, Repr

/-- Accessor `MWTAction::Get_Id`. -/
def MWTAction.Get_Id (a : MWTAction) : Nat := a.m_id

/-- Modelled from the spec: the `ActionSet` class of `Explorer.h`, the number of candidate
actions. -/
structure ActionSet where
  m_count : Nat
deriving DecidableEq, Repr

/-- Setter `ActionSet::Set_Count`. -/
def ActionSet.Set_Count (_s : ActionSet) (num_actions : Nat) : ActionSet :=
  { m_count := num_actions }

/-- Modelled from the spec: the `Interaction` class of `Explorer.h`: the context captured at
decision time, the chosen action, the probability reported by the explorer, the `u64` join key
and the reward, unset until `Set_Reward` is called. -/
structure Interaction where
  m_context : Context
  m_action : MWTAction
  m_prob : F32
  m_id : Nat
  m_reward : Option F32
deriving DecidableEq

/-- Modelled from the spec: the constructor `Interaction(context, action, prob, id)`; the
reward starts unset. -/
def Interaction.new (context : Context) (action : MWTAction) (prob : F32) (id : Nat) :
    Interaction :=
  { m_context := context, m_action := action, m_prob := prob, m_id := id, m_reward := none }

/-- Accessor `Interaction::Get_Id`. -/
def Interaction.Get_Id (i : Interaction) : Nat := i.m_id

/-- Modelled from the spec: `Interaction::Set_Reward` overwrites the reward field and nothing
else. -/
def Interaction.Set_Reward (i : Interaction) (reward : F32) : Interaction :=
  { i with m_reward := some reward }

/-! ## Memory and `std::map` -/

/-- An `Interaction*`: `none` is the null pointer, `some a` points to address `a`. -/
abbrev InteractionPtr := Option Nat

/-- The memory holding the `Interaction` objects the caller owns, by address. -/
abbrev Heap := Nat → Interaction

/-- A `std::map<u64, Interaction*>`, as its list of entries; `map_assign` keeps the
keys in ascending order as the C++ container does. -/
abbrev InteractionMap := List (Nat × InteractionPtr)

/-- Member `std::map::find`: `none` stands for `end()`, `some p` for an iterator to the entry
whose value is `p`. -/
def map_find : InteractionMap → Nat → Option InteractionPtr
  | [], _ => none
  | (k, p) :: rest, key => if k = key then some p else map_find rest key

/-- The statement `m[key] = value`: replaces the value of an existing entry, or
inserts a new entry at its place in key order. -/
def map_assign : InteractionMap → Nat → InteractionPtr → InteractionMap
  | [], key, value => [(key, value)]
  | (k, p) :: rest, key, value =>
    if key < k then (key, value) :: (k, p) :: rest
    else if k = key then (k, value) :: rest
    else (k, p) :: map_assign rest key value

/-- The expression `m[key]` read as a value: the stored pointer, and the map afterwards
(`operator[]` inserts a null pointer under a key that is absent). -/
def map_subscript (m : InteractionMap) (key : Nat) : InteractionMap × InteractionPtr :=
  match map_find m key with
  | some p => (m, p)
  | none => (map_assign m key none, none)

/-! ## `MWTRewardReporter` (MWT.h lines 264-316) -/

/-- The class `MWTRewardReporter`: its only member is the index `m_interactions`. -/
structure MWTRewardReporter where
  m_interactions : InteractionMap
deriving DecidableEq

/-- The loop of the constructor (lines 269-277), started at index `i` with `fuel` iterations
left. A null entry is skipped; a non-null entry is stored under the id read through it.
Both `i` and `num_interactions` are 64-bit, and `i < num_interactions` bounds `i`, so `i++`
never wraps. -/
def MWTRewardReporter.new_loop (interactions : List InteractionPtr) (heap : Heap) :
    Nat → Nat → InteractionMap → Option InteractionMap
  | 0, _, m => some m
  | fuel + 1, i, m =>
    match interactions[i]? with
    | none => none
    | some none => new_loop interactions heap fuel (i + 1) m
    | some (some a) =>
      new_loop interactions heap fuel (i + 1) (map_assign m (heap a).Get_Id (some a))

/-- The constructor `MWTRewardReporter(num_interactions, interactions)` (lines 267-278). -/
def MWTRewardReporter.new (num_interactions : Nat) (interactions : List InteractionPtr)
    (heap : Heap) : Option MWTRewardReporter :=
  (MWTRewardReporter.new_loop interactions heap num_interactions 0 []).map
    fun m => { m_interactions := m }

/-- The single-entry `ReportReward(id, reward)` (lines 280-289): the returned flag, the
reporter afterwards and the heap afterwards. -/
def MWTRewardReporter.ReportReward (self : MWTRewardReporter) (heap : Heap) (id : Nat)
    (reward : F32) : Option (Bool × MWTRewardReporter × Heap) :=
  let id_present := false
  if (map_find self.m_interactions id).isSome then
    let id_present := true
    let r := map_subscript self.m_interactions id
    match r.2 with
    | none => none
    | some a =>
      some (id_present, { m_interactions := r.1 },
        Function.update heap a ((heap a).Set_Reward reward))
  else
    some (id_present, self, heap)

/-- The loop of the batch `ReportReward` (lines 294-297), started at index `i` with `fuel`
iterations left; `&=` on `bool` evaluates its right operand always. -/
def MWTRewardReporter.ReportReward_loop (ids : List Nat) (rewards : List F32) :
    Nat → Nat → Bool → MWTRewardReporter → Heap → Option (Bool × MWTRewardReporter × Heap)
  | 0, _, all_ids_present, self, heap => some (all_ids_present, self, heap)
  | fuel + 1, i, all_ids_present, self, heap =>
    match ids[i]?, rewards[i]? with
    | some id, some reward =>
      match self.ReportReward heap id reward with
      | none => none
      | some (b, self1, heap1) =>
        ReportReward_loop ids rewards fuel (i + 1) (all_ids_present && b) self1 heap1
    | _, _ => none

/-- The batch `ReportReward(num_entries, ids, rewards)` (lines 291-299). -/
def MWTRewardReporter.ReportRewardBatch (self : MWTRewardReporter) (heap : Heap)
    (num_entries : Nat) (ids : List Nat) (rewards : List F32) :
    Option (Bool × MWTRewardReporter × Heap) :=
  let all_ids_present := false
  MWTRewardReporter.ReportReward_loop ids rewards num_entries 0 all_ids_present self heap

/-- Every entry of the index holds a non-null pointer to an `Interaction` whose id is the
entry's key: the state the constructor builds and `ReportReward` keeps. -/
def MWTRewardReporter.Indexed (self : MWTRewardReporter) (heap : Heap) : Prop :=
  ∀ k p, (k, p) ∈ self.m_interactions → ∃ a, p = some a ∧ (heap a).Get_Id = k

/-- The specification's reading of the batch call: `n` single-entry calls, one after the
other, each on the state the previous one left. -/
def MWTRewardReporter.sequentialReports (self : MWTRewardReporter) (heap : Heap) :
    List (Nat × F32) → Option (MWTRewardReporter × Heap)
  | [] => some (self, heap)
  | (id, reward) :: rest =>
    match self.ReportReward heap id reward with
    | none => none
    | some (_, self1, heap1) => sequentialReports self1 heap1 rest

/-! ## `MWTExplorer` (MWT.h lines 15-258) -/

/-- What `MWT.h` uses from the headers that are not at hand, for explorer objects of
type `E` (the state of whichever strategy `m_explorer` points to).

* `Explorer_Choose_Action` is the virtual `Explorer::Choose_Action(context, actions, seed)`:
  the tuple (action, probability, should_log) and the explorer object afterwards.
* `uniform_hash` is `uniform_hash(key, length, seed)` of `hash.h`.
* `NO_JOIN_KEY` is the `u64` sentinel of `Explorer.h`. -/
structure Externals (E : Type) where
  Explorer_Choose_Action : E → Context → ActionSet → Nat → (MWTAction × F32 × Bool) × E
  uniform_hash : List Nat → Nat → Nat → Nat
  NO_JOIN_KEY : Nat

/-- Modelled from the spec: the `Logger` class of `Explorer.h`, an append-only store of the
Interactions handed to it, in the order they were handed. -/
structure Logger where
  m_interactions : List Interaction
deriving DecidableEq

/-- Modelled from the spec: `Logger::Store` appends the Interaction. -/
def Logger.Store (l : Logger) (interaction : Interaction) : Logger :=
  { m_interactions := l.m_interactions ++ [interaction] }

/-- The class `MWTExplorer` (members at lines 254-257); `m_explorer = none` is the null
pointer. -/
structure MWTExplorer (E : Type) where
  m_explorer : Option E
  m_logger : Logger
  m_action_set : ActionSet
  m_id : Nat

/-- The constructor (lines 18-23): `m_id = 0; m_explorer = nullptr;`. The logger starts
empty; the default-constructed action set is written by `Initialize` before any use. -/
def MWTExplorer.new {E : Type} : MWTExplorer E :=
  { m_explorer := none, m_logger := { m_interactions := [] },
    m_action_set := { m_count := 0 }, m_id := 0 }

/-- The common body of the `Initialize_*` members (lines 116-190):
`m_action_set.Set_Count(num_actions); m_explorer = new ...Explorer(...)`, with the freshly
built explorer object as argument. -/
def MWTExplorer.Initialize {E : Type} (self : MWTExplorer E) (explorer : E)
    (num_actions : Nat) : MWTExplorer E :=
  { self with
    m_action_set := self.m_action_set.Set_Count num_actions
    m_explorer := some explorer }

/-- The private `Compute_Seed(unique_id, length)` (lines 247-251); the result is a `u32`. -/
def MWTExplorer.Compute_Seed {E : Type} (ext : Externals E) (unique_id : List Nat)
    (length : Nat) : Nat :=
  ext.uniform_hash unique_id length 0 % 2 ^ 32

/-- The member `Choose_Action(context, unique_id, log_context)` (lines 202-216): the returned
action id and the engine afterwards. `unique_id.size()` is passed as the `u32` parameter
`length` of `Compute_Seed`. -/
def MWTExplorer.Choose_Action {E : Type} (ext : Externals E) (self : MWTExplorer E)
    (context : Context) (unique_id : List Nat) (log_context : Context) :
    Option (Nat × MWTExplorer E) :=
  let seed := MWTExplorer.Compute_Seed ext unique_id (unique_id.length % 2 ^ 32)
  match self.m_explorer with
  | none => none
  | some e =>
    let r := ext.Explorer_Choose_Action e context self.m_action_set seed
    let action_Probability_Log_Tuple := r.1
    let self1 := { self with m_explorer := some r.2 }
    if !action_Probability_Log_Tuple.2.2 then
      some (action_Probability_Log_Tuple.1.Get_Id, self1)
    else
      let pInteraction := Interaction.new log_context action_Probability_Log_Tuple.1
        action_Probability_Log_Tuple.2.1 seed
      some (action_Probability_Log_Tuple.1.Get_Id,
        { self1 with m_logger := self1.m_logger.Store pInteraction })

/-- The member `Choose_Action_And_Key(context, log_context)` (lines 219-234): the returned
pair (action id, join key) and the engine afterwards. `m_id++` wraps at `2 ^ 64`, and
`(u32)id` keeps the low 32 bits. -/
def MWTExplorer.Choose_Action_And_Key {E : Type} (ext : Externals E) (self : MWTExplorer E)
    (context : Context) (log_context : Context) : Option ((Nat × Nat) × MWTExplorer E) :=
  let id := self.m_id
  let self0 := { self with m_id := (self.m_id + 1) % 2 ^ 64 }
  match self0.m_explorer with
  | none => none
  | some e =>
    let r := ext.Explorer_Choose_Action e context self0.m_action_set (id % 2 ^ 32)
    let action_Probability_Log_Tuple := r.1
    let self1 := { self0 with m_explorer := some r.2 }
    if !action_Probability_Log_Tuple.2.2 then
      some ((action_Probability_Log_Tuple.1.Get_Id, ext.NO_JOIN_KEY), self1)
    else
      let interaction := Interaction.new log_context action_Probability_Log_Tuple.1
        action_Probability_Log_Tuple.2.1 id
      some ((action_Probability_Log_Tuple.1.Get_Id, interaction.Get_Id),
        { self1 with m_logger := self1.m_logger.Store interaction })

/-! ## Sequences of calls on one engine -/

/-- One call of a decision entry point, with its arguments. -/
inductive Call where
  | Choose_Action (context : Context) (unique_id : List Nat) (log_context : Context)
  | Choose_Action_And_Key (context : Context) (log_context : Context)
deriving DecidableEq

/-- What a call returned: an action id, or an action id with a join key. -/
inductive Returned where
  | action (id : Nat)
  | action_and_key (id : Nat) (key : Nat)
deriving DecidableEq

/-- Runs one call. -/
def MWTExplorer.call {E : Type} (ext : Externals E) (self : MWTExplorer E) :
    Call → Option (Returned × MWTExplorer E)
  | .Choose_Action context unique_id log_context =>
    (self.Choose_Action ext context unique_id log_context).map
      fun r => (Returned.action r.1, r.2)
  | .Choose_Action_And_Key context log_context =>
    (self.Choose_Action_And_Key ext context log_context).map
      fun r => (Returned.action_and_key r.1.1 r.1.2, r.2)

/-- Runs the calls in order on one engine: the values returned, in call order, and the engine
at the end. -/
def MWTExplorer.run {E : Type} (ext : Externals E) :
    MWTExplorer E → List Call → Option (List Returned × MWTExplorer E)
  | self, [] => some ([], self)
  | self, c :: rest =>
    match self.call ext c with
    | none => none
    | some (r, self1) =>
      match run ext self1 rest with
      | none => none
      | some (rs, self2) => some (r :: rs, self2)

/-- The join keys among the returned values, in call order. -/
def joinKeys : List Returned → List Nat
  | [] => []
  | .action _ :: rest => joinKeys rest
  | .action_and_key _ key :: rest => key :: joinKeys rest

/-- The number of `Choose_Action_And_Key` calls in a sequence. -/
def keyCalls : List Call → Nat
  | [] => 0
  | .Choose_Action _ _ _ :: rest => keyCalls rest
  | .Choose_Action_And_Key _ _ :: rest => keyCalls rest + 1

/-- The calls are all `Choose_Action_And_Key` calls. -/
def onlyKeyCalls : List Call → Bool
  | [] => true
  | .Choose_Action _ _ _ :: _ => false
  | .Choose_Action_And_Key _ _ :: rest => onlyKeyCalls rest

/-- The ids of the Interactions a logger holds, in the order they were stored. -/
def Logger.ids (l : Logger) : List Nat := l.m_interactions.map Interaction.Get_Id

/-- The states the explorer object `e` can be brought to by calls of the virtual
`Explorer::Choose_Action` with the action set `actions`, any contexts and any seeds: `e`
itself, and the object left by one more call on a state so reached. -/
inductive Externals.Reachable {E : Type} (ext : Externals E) (actions : ActionSet) (e : E) :
    E → Prop where
  | refl : Externals.Reachable ext actions e e
  | step (e1 : E) (context : Context) (seed : Nat) :
    Externals.Reachable ext actions e e1 →
    Externals.Reachable ext actions e (ext.Explorer_Choose_Action e1 context actions seed).2

/-- Runs the calls in order on one engine, recording next to each call the Interactions that
call appended to the logger (the logger's entries past its length before the call). -/
def MWTExplorer.runStored {E : Type} (ext : Externals E) :
    MWTExplorer E → List Call → Option (List (Call × List Interaction) × MWTExplorer E)
  | self, [] => some ([], self)
  | self, c :: rest =>
    match self.call ext c with
    | none => none
    | some (_, self1) =>
      match runStored ext self1 rest with
      | none => none
      | some (tr, self2) =>
        some ((c, self1.m_logger.m_interactions.drop self.m_logger.m_interactions.length)
          :: tr, self2)

/-- All the Interactions recorded, in the order they were stored. -/
def allStored : List (Call × List Interaction) → List Interaction
  | [] => []
  | (_, stored) :: rest => stored ++ allStored rest

/-- The ids of the Interactions recorded next to `Choose_Action_And_Key` calls, in the order
they were stored. -/
def keyStoredIds : List (Call × List Interaction) → List Nat
  | [] => []
  | (.Choose_Action _ _ _, _) :: rest => keyStoredIds rest
  | (.Choose_Action_And_Key _ _, stored) :: rest =>
    stored.map Interaction.Get_Id ++ keyStoredIds rest

/-! ## Explorer strategies used as instances -/

/-- Modelled from the spec: the Tau-First strategy of `Explorer.h`. The object holds the
parameter `tau` and the number of decisions made so far. For the first `tau` decisions the
action is drawn uniformly from the seed (`draw seed count`), reported with probability
`1 / count` and logged; from then on the default policy decides, with probability `1`, not
logged. The count advances on every call. -/
structure TauFirstExplorer where
  m_tau : Nat
  m_decisions : Nat
deriving DecidableEq

/-- Modelled from the spec: `TauFirstExplorer::Choose_Action`, for a default policy and a
seeded uniform draw. -/
def TauFirstExplorer.Choose_Action (default_policy : Context → Nat) (draw : Nat → Nat → Nat)
    (self : TauFirstExplorer) (context : Context) (actions : ActionSet) (seed : Nat) :
    (MWTAction × F32 × Bool) × TauFirstExplorer :=
  let next := { self with m_decisions := self.m_decisions + 1 }
  if self.m_decisions < self.m_tau then
    (({ m_id := draw seed actions.m_count }, 1 / (actions.m_count : ℚ), true), next)
  else
    (({ m_id := default_policy context }, 1, false), next)

/-- The externals with a Tau-First explorer: default policy, uniform draw, hash and sentinel
as given. -/
def tauFirstExternals (default_policy : Context → Nat) (draw : Nat → Nat → Nat)
    (uniform_hash : List Nat → Nat → Nat → Nat) (NO_JOIN_KEY : Nat) :
    Externals TauFirstExplorer :=
  { Explorer_Choose_Action := TauFirstExplorer.Choose_Action default_policy draw
    uniform_hash := uniform_hash
    NO_JOIN_KEY := NO_JOIN_KEY }

/-- A strategy without state that logs every decision: the action is the seed reduced modulo
the number of actions, reported with probability `1 / count`. -/
def seededExplorer (_self : Unit) (_context : Context) (actions : ActionSet) (seed : Nat) :
    (MWTAction × F32 × Bool) × Unit :=
  (({ m_id := seed % actions.m_count }, 1 / (actions.m_count : ℚ), true), ())

/-- A sample hash for concrete instances: the sum of the first `length` bytes plus the
seed. -/
def sampleHash (key : List Nat) (length : Nat) (seed : Nat) : Nat :=
  (key.take length).sum + seed

/-- Concrete externals: the stateless seeded strategy, the sample hash, sentinel `0`. -/
def sampleExternals : Externals Unit :=
  { Explorer_Choose_Action := seededExplorer
    uniform_hash := sampleHash
    NO_JOIN_KEY := 0 }

/-- Concrete externals with a Tau-First explorer: default policy `0`, draw
`seed % count`, the sample hash, sentinel `2 ^ 64 - 1`. -/
def sampleTauFirst : Externals TauFirstExplorer :=
  tauFirstExternals (fun _ => 0) (fun seed count => seed % count) sampleHash (2 ^ 64 - 1)

/-- A sample heap: address `a` holds an Interaction with id `a % 3` and no reward. -/
def sampleHeap : Heap :=
  fun a => Interaction.new [] { m_id := 0 } 1 (a % 3)

/-- A sample reporter over `sampleHeap`: id `1` indexed at address `1`, id `2` at address
`5`. -/
def sampleReporter : MWTRewardReporter :=
  { m_interactions := [(1, some 1), (2, some 5)] }

/-- A freshly constructed engine initialised with the stateless seeded strategy over two
actions. -/
def sampleEngine : MWTExplorer Unit :=
  MWTExplorer.new.Initialize () 2

/-- A freshly constructed engine initialised with Tau-First, parameter `tau`, over two
actions. -/
def sampleTauEngine (tau : Nat) : MWTExplorer TauFirstExplorer :=
  MWTExplorer.new.Initialize { m_tau := tau, m_decisions := 0 } 2

/-- A sample sequence of calls mixing both entry points. -/
def sampleCalls : List Call :=
  [Call.Choose_Action_And_Key [] [], Call.Choose_Action [] [1] [],
    Call.Choose_Action_And_Key [] [], Call.Choose_Action_And_Key [] []]

/-! ## Lemmas on the map -/

theorem map_find_assign_same (m : InteractionMap) (key : Nat) (value : InteractionPtr) :
    map_find (map_assign m key value) key = some value := by
  induction m with
  | nil => simp [map_assign, map_find]
  | cons e rest ih =>
    obtain ⟨k, p⟩ := e
    unfold map_assign
    by_cases h1 : key < k
    · simp [h1, map_find]
    · by_cases h2 : k = key
      · simp [h1, h2, map_find]
      · simp [h1, h2, map_find, ih]

theorem map_find_assign_other (m : InteractionMap) (key other : Nat) (value : InteractionPtr)
    (h : other ≠ key) : map_find (map_assign m key value) other = map_find m other := by
  induction m with
  | nil => simp [map_assign, map_find, Ne.symm h]
  | cons e rest ih =>
    obtain ⟨k, p⟩ := e
    unfold map_assign
    by_cases h1 : key < k
    · simp [h1, map_find, Ne.symm h]
    · by_cases h2 : k = key
      · subst h2
        simp [h1, map_find, Ne.symm h]
      · simp [h1, h2, map_find, ih]

theorem mem_of_map_find (m : InteractionMap) (key : Nat) (p : InteractionPtr)
    (h : map_find m key = some p) : (key, p) ∈ m := by
  induction m with
  | nil => simp [map_find] at h
  | cons e rest ih =>
    obtain ⟨k, q⟩ := e
    unfold map_find at h
    by_cases hk : k = key
    · simp [hk] at h
      simp [hk, h]
    · simp [hk] at h
      exact List.mem_cons_of_mem _ (ih h)

theorem mem_map_assign (m : InteractionMap) (key : Nat) (value : InteractionPtr)
    (e : Nat × InteractionPtr) (h : e ∈ map_assign m key value) :
    e = (key, value) ∨ e ∈ m := by
  induction m with
  | nil => simpa [map_assign] using h
  | cons e0 rest ih =>
    obtain ⟨k, p⟩ := e0
    unfold map_assign at h
    by_cases h1 : key < k
    · rw [if_pos h1, List.mem_cons, List.mem_cons] at h
      rcases h with h | h | h
      · exact Or.inl h
      · exact Or.inr (by simp [h])
      · exact Or.inr (List.mem_cons_of_mem _ h)
    · by_cases h2 : k = key
      · rw [if_neg h1, if_pos h2, List.mem_cons] at h
        rcases h with h | h
        · exact Or.inl (by rw [h, h2])
        · exact Or.inr (List.mem_cons_of_mem _ h)
      · rw [if_neg h1, if_neg h2, List.mem_cons] at h
        rcases h with h | h
        · exact Or.inr (by simp [h])
        · rcases ih h with h | h
          · exact Or.inl h
          · exact Or.inr (List.mem_cons_of_mem _ h)

/-! ## The constructor of the reporter -/

/-- With `i + fuel` the length of the array, the constructor's loop ends with a map whose keys
are the keys it started with and the ids of the non-null entries from index `i` on, and whose
entries all satisfy the index property when the starting entries do. -/
theorem new_loop_spec (interactions : List InteractionPtr) (heap : Heap) :
    ∀ (fuel i : Nat) (m : InteractionMap), i + fuel = interactions.length →
      ∃ m1, MWTRewardReporter.new_loop interactions heap fuel i m = some m1 ∧
        (∀ id, (map_find m1 id).isSome = true ↔
          ((map_find m id).isSome = true ∨
            ∃ j a, i ≤ j ∧ interactions[j]? = some (some a) ∧ (heap a).Get_Id = id)) ∧
        ((∀ k p, (k, p) ∈ m → ∃ a, p = some a ∧ (heap a).Get_Id = k) →
          ∀ k p, (k, p) ∈ m1 → ∃ a, p = some a ∧ (heap a).Get_Id = k) := by
  intro fuel
  induction fuel with
  | zero =>
    intro i m hlen
    refine ⟨m, rfl, ?_, fun h => h⟩
    intro id
    constructor
    · exact fun h => Or.inl h
    · rintro (h | ⟨j, a, hij, hj, _⟩)
      · exact h
      · have : j < interactions.length := by
          by_contra hc
          rw [List.getElem?_eq_none (by omega)] at hj
          cases hj
        omega
  | succ fuel ih =>
    intro i m hlen
    have hi : i < interactions.length := by omega
    unfold MWTRewardReporter.new_loop
    rw [List.getElem?_eq_getElem hi]
    cases hp : interactions[i] with
    | none =>
      obtain ⟨m1, hrun, hkeys, hinv⟩ := ih (i + 1) m (by omega)
      refine ⟨m1, hrun, ?_, hinv⟩
      intro id
      rw [hkeys id]
      constructor
      · rintro (h | ⟨j, a, hij, hj, hid⟩)
        · exact Or.inl h
        · exact Or.inr ⟨j, a, by omega, hj, hid⟩
      · rintro (h | ⟨j, a, hij, hj, hid⟩)
        · exact Or.inl h
        · refine Or.inr ⟨j, a, ?_, hj, hid⟩
          by_contra hc
          have hji : j = i := by omega
          subst hji
          rw [List.getElem?_eq_getElem hi, hp] at hj
          cases hj
    | some a0 =>
      obtain ⟨m1, hrun, hkeys, hinv⟩ :=
        ih (i + 1) (map_assign m (heap a0).Get_Id (some a0)) (by omega)
      refine ⟨m1, hrun, ?_, ?_⟩
      · intro id
        rw [hkeys id]
        by_cases hid0 : id = (heap a0).Get_Id
        · subst hid0
          constructor
          · intro _
            exact Or.inr ⟨i, a0, le_refl _, by rw [List.getElem?_eq_getElem hi, hp], rfl⟩
          · intro _
            exact Or.inl (by rw [map_find_assign_same]; rfl)
        · rw [map_find_assign_other _ _ _ _ hid0]
          constructor
          · rintro (h | ⟨j, a, hij, hj, hid⟩)
            · exact Or.inl h
            · exact Or.inr ⟨j, a, by omega, hj, hid⟩
          · rintro (h | ⟨j, a, hij, hj, hid⟩)
            · exact Or.inl h
            · refine Or.inr ⟨j, a, ?_, hj, hid⟩
              by_contra hc
              have hji : j = i := by omega
              subst hji
              rw [List.getElem?_eq_getElem hi, hp] at hj
              simp only [Option.some.injEq] at hj
              subst hj
              exact hid0 hid.symm
      · intro hm
        apply hinv
        intro k p hmem
        rcases mem_map_assign _ _ _ _ hmem with h | h
        · simp only [Prod.mk.injEq] at h
          exact ⟨a0, h.2, h.1.symm⟩
        · exact hm k p h

/-- The constructor, given the array's length, returns a reporter; its keys are the ids of the
non-null entries, and it satisfies the index property. -/
theorem new_spec (interactions : List InteractionPtr) (heap : Heap) :
    ∃ self, MWTRewardReporter.new interactions.length interactions heap = some self ∧
      (∀ id, (map_find self.m_interactions id).isSome = true ↔
        ∃ a, some a ∈ interactions ∧ (heap a).Get_Id = id) ∧
      self.Indexed heap := by
  obtain ⟨m1, hrun, hkeys, hinv⟩ :=
    new_loop_spec interactions heap interactions.length 0 [] (by simp)
  refine ⟨{ m_interactions := m1 }, by simp [MWTRewardReporter.new, hrun], ?_, ?_⟩
  · intro id
    rw [hkeys id]
    constructor
    · rintro (h | ⟨j, a, _, hj, hid⟩)
      · simp [map_find] at h
      · exact ⟨a, List.getElem?_mem hj, hid⟩
    · rintro ⟨a, hmem, hid⟩
      obtain ⟨j, hj⟩ := List.mem_iff_getElem?.mp hmem
      exact Or.inr ⟨j, a, Nat.zero_le _, hj, hid⟩
  · exact hinv (by simp)

/-! ## The single-entry `ReportReward` -/

theorem ReportReward_absent (self : MWTRewardReporter) (heap : Heap) (id : Nat) (reward : F32)
    (h : map_find self.m_interactions id = none) :
    self.ReportReward heap id reward = some (false, self, heap) := by
  simp [MWTRewardReporter.ReportReward, h]

theorem ReportReward_present (self : MWTRewardReporter) (heap : Heap) (id : Nat) (reward : F32)
    (a : Nat) (h : map_find self.m_interactions id = some (some a)) :
    self.ReportReward heap id reward =
      some (true, self, Function.update heap a ((heap a).Set_Reward reward)) := by
  simp [MWTRewardReporter.ReportReward, map_subscript, h]

theorem Indexed_find (self : MWTRewardReporter) (heap : Heap) (h : self.Indexed heap)
    (id : Nat) (p : InteractionPtr) (hf : map_find self.m_interactions id = some p) :
    ∃ a, p = some a ∧ (heap a).Get_Id = id :=
  h id p (mem_of_map_find _ _ _ hf)

theorem Indexed_update (self : MWTRewardReporter) (heap : Heap) (h : self.Indexed heap)
    (a : Nat) (reward : F32) :
    self.Indexed (Function.update heap a ((heap a).Set_Reward reward)) := by
  intro k p hmem
  obtain ⟨b, hb, hid⟩ := h k p hmem
  refine ⟨b, hb, ?_⟩
  by_cases hba : b = a
  · subst hba
    simpa [Function.update, Interaction.Set_Reward, Interaction.Get_Id] using hid
  · simpa [Function.update, hba] using hid

/-- On an indexed reporter the single-entry call returns, leaves the reporter as it is and
keeps the index property. -/
theorem ReportReward_total (self : MWTRewardReporter) (heap : Heap) (h : self.Indexed heap)
    (id : Nat) (reward : F32) :
    ∃ b heap1, self.ReportReward heap id reward = some (b, self, heap1) ∧
      self.Indexed heap1 ∧
      (b = true ↔ (map_find self.m_interactions id).isSome = true) := by
  cases hf : map_find self.m_interactions id with
  | none =>
    exact ⟨false, heap, ReportReward_absent _ _ _ _ hf, h, by simp⟩
  | some p =>
    obtain ⟨a, rfl, _⟩ := Indexed_find self heap h id p hf
    exact ⟨true, _, ReportReward_present _ _ _ _ a hf, Indexed_update _ _ h a reward, by simp⟩

/-- Two entries of an indexed reporter under different keys point to different objects. -/
theorem Indexed_ne (self : MWTRewardReporter) (heap : Heap) (h : self.Indexed heap)
    (k1 k2 a1 a2 : Nat) (hk : k1 ≠ k2)
    (h1 : map_find self.m_interactions k1 = some (some a1))
    (h2 : map_find self.m_interactions k2 = some (some a2)) : a1 ≠ a2 := by
  obtain ⟨b1, hb1, hid1⟩ := Indexed_find self heap h k1 _ h1
  obtain ⟨b2, hb2, hid2⟩ := Indexed_find self heap h k2 _ h2
  simp only [Option.some.injEq] at hb1 hb2
  subst hb1 hb2
  intro hEq
  subst hEq
  exact hk (hid1.symm.trans hid2)

/-! ## The batch `ReportReward` -/

/-- The flag of the batch loop is the conjunction of its starting value with the flags of the
single-entry calls, so it is `false` when it starts `false`. -/
theorem ReportReward_loop_flag (ids : List Nat) (rewards : List F32) :
    ∀ (fuel i : Nat) (self : MWTRewardReporter) (heap : Heap)
      (r : Bool × MWTRewardReporter × Heap),
      MWTRewardReporter.ReportReward_loop ids rewards fuel i false self heap = some r →
      r.1 = false := by
  intro fuel
  induction fuel with
  | zero =>
    intro i self heap r h
    simp only [MWTRewardReporter.ReportReward_loop, Option.some.injEq] at h
    rw [← h]
  | succ fuel ih =>
    intro i self heap r h
    unfold MWTRewardReporter.ReportReward_loop at h
    cases hid : ids[i]? with
    | none => simp [hid] at h
    | some id =>
      cases hrw : rewards[i]? with
      | none => simp [hid, hrw] at h
      | some reward =>
        simp only [hid, hrw] at h
        cases hr : self.ReportReward heap id reward with
        | none => simp [hr] at h
        | some t =>
          obtain ⟨b, self1, heap1⟩ := t
          simp only [hr, Bool.false_and] at h
          exact ih _ _ _ _ h

/-- The batch call never returns `true`. -/
theorem ReportRewardBatch_flag (self : MWTRewardReporter) (heap : Heap) (num_entries : Nat)
    (ids : List Nat) (rewards : List F32) (r : Bool × MWTRewardReporter × Heap)
    (h : self.ReportRewardBatch heap num_entries ids rewards = some r) : r.1 = false :=
  ReportReward_loop_flag ids rewards num_entries 0 self heap r h

/-- The states of the batch loop are those of the sequential single-entry calls on the entries
from index `i` on, whatever the flag. -/
theorem ReportReward_loop_states (ids : List Nat) (rewards : List F32)
    (hlen : rewards.length = ids.length) :
    ∀ (fuel i : Nat) (all : Bool) (self : MWTRewardReporter) (heap : Heap),
      i + fuel = ids.length →
      (MWTRewardReporter.ReportReward_loop ids rewards fuel i all self heap).map Prod.snd =
        self.sequentialReports heap ((ids.zip rewards).drop i) := by
  intro fuel
  induction fuel with
  | zero =>
    intro i all self heap hi
    have : (ids.zip rewards).drop i = [] := by
      apply List.drop_eq_nil_of_le
      simp [List.length_zip, hlen]
      omega
    simp [MWTRewardReporter.ReportReward_loop, this, MWTRewardReporter.sequentialReports]
  | succ fuel ih =>
    intro i all self heap hi
    have hi1 : i < ids.length := by omega
    have hi2 : i < rewards.length := by omega
    have hi3 : i < (ids.zip rewards).length := by simp [List.length_zip, hlen]; omega
    have hdrop : (ids.zip rewards).drop i =
        (ids[i], rewards[i]) :: (ids.zip rewards).drop (i + 1) := by
      rw [List.drop_eq_getElem_cons hi3, List.getElem_zip]
    unfold MWTRewardReporter.ReportReward_loop
    rw [hdrop, List.getElem?_eq_getElem hi1, List.getElem?_eq_getElem hi2]
    simp only [MWTRewardReporter.sequentialReports]
    cases hr : self.ReportReward heap ids[i] rewards[i] with
    | none => simp
    | some t =>
      obtain ⟨b, self1, heap1⟩ := t
      simp only
      exact ih (i + 1) (all && b) self1 heap1 (by omega)

theorem sequentialReports_append (self : MWTRewardReporter) (heap : Heap)
    (pre post : List (Nat × F32)) :
    self.sequentialReports heap (pre ++ post) =
      match self.sequentialReports heap pre with
      | none => none
      | some (self1, heap1) => self1.sequentialReports heap1 post := by
  induction pre generalizing self heap with
  | nil => simp [MWTRewardReporter.sequentialReports]
  | cons e rest ih =>
    obtain ⟨id, reward⟩ := e
    simp only [List.cons_append, MWTRewardReporter.sequentialReports]
    cases hr : self.ReportReward heap id reward with
    | none => simp
    | some t =>
      obtain ⟨b, self1, heap1⟩ := t
      simp only
      exact ih self1 heap1

/-- Sequential calls on an indexed reporter all return, leave the reporter as it is and keep
the index property. -/
theorem sequentialReports_total (self : MWTRewardReporter) (entries : List (Nat × F32)) :
    ∀ (heap : Heap), self.Indexed heap →
      ∃ heap1, self.sequentialReports heap entries = some (self, heap1) ∧
        self.Indexed heap1 := by
  induction entries with
  | nil => exact fun heap h => ⟨heap, rfl, h⟩
  | cons e rest ih =>
    intro heap h
    obtain ⟨id, reward⟩ := e
    obtain ⟨b, heap1, hr, hidx, _⟩ := ReportReward_total self heap h id reward
    obtain ⟨heap2, hrest, hidx2⟩ := ih heap1 hidx
    exact ⟨heap2, by simp [MWTRewardReporter.sequentialReports, hr, hrest], hidx2⟩

/-- Sequential calls whose ids all differ from `id` leave the Interaction indexed under `id`
as it is. -/
theorem sequentialReports_frame (self : MWTRewardReporter) (id a : Nat)
    (hf : map_find self.m_interactions id = some (some a)) (entries : List (Nat × F32))
    (hne : ∀ e ∈ entries, e.1 ≠ id) :
    ∀ (heap heap1 : Heap), self.Indexed heap →
      self.sequentialReports heap entries = some (self, heap1) → heap1 a = heap a := by
  induction entries with
  | nil =>
    intro heap heap1 _ h
    simp only [MWTRewardReporter.sequentialReports, Option.some.injEq, Prod.mk.injEq,
      true_and] at h
    rw [h]
  | cons e rest ih =>
    intro heap heap1 hidx h
    obtain ⟨id0, reward⟩ := e
    have hid0 : id0 ≠ id := hne (id0, reward) (List.mem_cons_self _ _)
    have hrest : ∀ e ∈ rest, e.1 ≠ id := fun e he => hne e (List.mem_cons_of_mem _ he)
    simp only [MWTRewardReporter.sequentialReports] at h
    cases hf0 : map_find self.m_interactions id0 with
    | none =>
      rw [ReportReward_absent _ _ _ _ hf0] at h
      exact ih hrest heap heap1 hidx h
    | some p =>
      obtain ⟨a0, rfl, _⟩ := Indexed_find self heap hidx id0 p hf0
      rw [ReportReward_present _ _ _ _ a0 hf0] at h
      have hne0 : a ≠ a0 := Indexed_ne self heap hidx id id0 a a0 (Ne.symm hid0) hf hf0
      have := ih hrest _ heap1 (Indexed_update _ _ hidx a0 reward) h
      rw [this, Function.update_noteq hne0]

/-! ## Claims on the reward reporter -/

/-- C1: for every array of Interaction pointers (null entries and repeated ids allowed) the
constructor returns a reporter, on which the single-entry `ReportReward(id, reward)` returns,
with the flag `true` exactly when some non-null entry of the array points to an Interaction
with that id. -/
theorem C1_ReportReward_true_iff_entry (interactions : List InteractionPtr) (heap : Heap)
    (id : Nat) (reward : F32) :
    ∃ self, MWTRewardReporter.new interactions.length interactions heap = some self ∧
      ∃ b self1 heap1, self.ReportReward heap id reward = some (b, self1, heap1) ∧
        (b = true ↔ ∃ a, some a ∈ interactions ∧ (heap a).Get_Id = id) := by
  obtain ⟨self, hnew, hkeys, hidx⟩ := new_spec interactions heap
  obtain ⟨b, heap1, hr, _, hb⟩ := ReportReward_total self heap hidx id reward
  exact ⟨self, hnew, b, self, heap1, hr, hb.trans (hkeys id)⟩

/-- C2: on an indexed reporter, `ReportReward(id, reward)` with `id` indexed at object `a`
returns `true`, leaves the index as it is, sets the reward of `a` to `reward` whatever it was,
keeps the other fields of `a`, leaves every other object and every Interaction indexed under
another key unchanged, and a second report on the same key overwrites the first; with `id` not
indexed it returns `false` and changes neither the index nor the heap. -/
theorem C2_ReportReward_effect (self : MWTRewardReporter) (heap : Heap) (id : Nat)
    (reward : F32) (hidx : self.Indexed heap) :
    ((map_find self.m_interactions id).isSome = true →
      ∃ a heap1, map_find self.m_interactions id = some (some a) ∧
        self.ReportReward heap id reward = some (true, self, heap1) ∧
        (heap1 a).m_reward = some reward ∧
        (heap1 a).m_id = (heap a).m_id ∧ (heap1 a).m_action = (heap a).m_action ∧
        (heap1 a).m_prob = (heap a).m_prob ∧ (heap1 a).m_context = (heap a).m_context ∧
        (∀ b, b ≠ a → heap1 b = heap b) ∧
        (∀ k b, k ≠ id → map_find self.m_interactions k = some (some b) →
          heap1 b = heap b) ∧
        self.Indexed heap1 ∧
        ∀ reward2, ∃ heap2, self.ReportReward heap1 id reward2 = some (true, self, heap2) ∧
          (heap2 a).m_reward = some reward2) ∧
    ((map_find self.m_interactions id).isSome = false →
      self.ReportReward heap id reward = some (false, self, heap)) := by
  constructor
  · intro hsome
    cases hf : map_find self.m_interactions id with
    | none => simp [hf] at hsome
    | some p =>
      obtain ⟨a, rfl, _⟩ := Indexed_find self heap hidx id p hf
      refine ⟨a, _, rfl, ReportReward_present _ _ _ _ a hf, ?_, ?_, ?_, ?_, ?_, ?_, ?_,
        Indexed_update _ _ hidx a reward, ?_⟩
      · simp [Interaction.Set_Reward]
      · simp [Interaction.Set_Reward]
      · simp [Interaction.Set_Reward]
      · simp [Interaction.Set_Reward]
      · simp [Interaction.Set_Reward]
      · intro b hb
        exact Function.update_noteq hb _ _
      · intro k b hk hfk
        exact Function.update_noteq (Indexed_ne self heap hidx k id b a hk hfk hf) _ _
      · intro reward2
        exact ⟨_, ReportReward_present _ _ _ _ a hf, by simp [Interaction.Set_Reward]⟩
  · intro hnone
    apply ReportReward_absent
    cases hf : map_find self.m_interactions id with
    | none => rfl
    | some p => simp [hf] at hnone

theorem sampleReporter_Indexed : sampleReporter.Indexed sampleHeap := by
  intro k p h
  simp only [sampleReporter, List.mem_cons, Prod.mk.injEq, List.mem_nil_iff, or_false] at h
  rcases h with ⟨rfl, rfl⟩ | ⟨rfl, rfl⟩
  · exact ⟨1, rfl, rfl⟩
  · exact ⟨5, rfl, rfl⟩

/-- C2 at the sample reporter: id `2` is indexed, id `7` is not. -/
theorem C2_ReportReward_effect_witness :
    sampleReporter.Indexed sampleHeap ∧
    (∃ a heap1, map_find sampleReporter.m_interactions 2 = some (some a) ∧
      sampleReporter.ReportReward sampleHeap 2 (7 / 10) = some (true, sampleReporter, heap1) ∧
      (heap1 a).m_reward = some (7 / 10)) ∧
    sampleReporter.ReportReward sampleHeap 7 (7 / 10) =
      some (false, sampleReporter, sampleHeap) := by
  have h := C2_ReportReward_effect sampleReporter sampleHeap 2 (7 / 10) sampleReporter_Indexed
  have h7 := C2_ReportReward_effect sampleReporter sampleHeap 7 (7 / 10) sampleReporter_Indexed
  refine ⟨sampleReporter_Indexed, ?_, h7.2 (by decide)⟩
  obtain ⟨a, heap1, hf, hr, hrew, _⟩ := h.1 (by decide)
  exact ⟨a, heap1, hf, hr, hrew⟩

/-- C3, the code at two inputs: on the reporter built from one Interaction with id `1`, the
single-entry call for id `1` returns `true`, while the batch call on that one entry returns
`false`, and so does the batch call on no entries. -/
theorem C3_batch_flag_at_indexed_id :
    ∃ self, MWTRewardReporter.new 1 [some 1] sampleHeap = some self ∧
      (self.ReportReward sampleHeap 1 (7 / 10)).map Prod.fst = some true ∧
      (self.ReportRewardBatch sampleHeap 1 [1] [7 / 10]).map Prod.fst = some false ∧
      (self.ReportRewardBatch sampleHeap 0 [] []).map Prod.fst = some false :=
  ⟨{ m_interactions := [(1, some 1)] }, rfl, rfl, rfl, rfl⟩

/-- C9: for `n` ids with `n` rewards the batch call leaves the state that `n` sequential
single-entry calls in index order leave (and fails when one of them fails); on an indexed
reporter it returns, the index is as before, and an indexed id of the batch carries the reward
of its last entry, whatever entries (found or not) come before it. -/
theorem C9_batch_state_eq_sequential (self : MWTRewardReporter) (heap : Heap)
    (ids : List Nat) (rewards : List F32) (hlen : rewards.length = ids.length) :
    (self.ReportRewardBatch heap ids.length ids rewards).map Prod.snd =
      self.sequentialReports heap (ids.zip rewards) ∧
    (self.Indexed heap →
      ∃ b heap1, self.ReportRewardBatch heap ids.length ids rewards = some (b, self, heap1) ∧
        ∀ pre post id reward a, ids.zip rewards = pre ++ (id, reward) :: post →
          (∀ e ∈ post, e.1 ≠ id) → map_find self.m_interactions id = some (some a) →
          (heap1 a).m_reward = some reward) := by
  have heq : (self.ReportRewardBatch heap ids.length ids rewards).map Prod.snd =
      self.sequentialReports heap (ids.zip rewards) := by
    have := ReportReward_loop_states ids rewards hlen ids.length 0 false self heap (by simp)
    simpa [MWTRewardReporter.ReportRewardBatch] using this
  refine ⟨heq, ?_⟩
  intro hidx
  obtain ⟨heap1, hseq, _⟩ := sequentialReports_total self (ids.zip rewards) heap hidx
  rw [hseq] at heq
  cases hb : self.ReportRewardBatch heap ids.length ids rewards with
  | none => simp [hb] at heq
  | some t =>
    obtain ⟨b, self1, heap1a⟩ := t
    simp only [hb, Option.map_some', Option.some.injEq, Prod.mk.injEq] at heq
    obtain ⟨rfl, rfl⟩ := heq
    refine ⟨b, heap1a, rfl, ?_⟩
    intro pre post id reward a hsplit hpost hf
    rw [hsplit, sequentialReports_append] at hseq
    obtain ⟨heapP, hpre, hidxP⟩ := sequentialReports_total self1 pre heap hidx
    rw [hpre] at hseq
    simp only [MWTRewardReporter.sequentialReports] at hseq
    rw [ReportReward_present _ _ _ _ a hf] at hseq
    simp only at hseq
    have := sequentialReports_frame self1 id a hf post hpost _ heap1a
      (Indexed_update _ _ hidxP a reward) hseq
    rw [this]
    simp [Interaction.Set_Reward]

/-- C9 at the sample reporter: in the batch `[7, 2]` the unknown id `7` comes first and the
reward of id `2` is set all the same. -/
theorem C9_batch_state_eq_sequential_witness :
    ([7 / 10, 1 / 2] : List F32).length = [7, 2].length ∧
    ∃ b heap1, sampleReporter.ReportRewardBatch sampleHeap 2 [7, 2] [7 / 10, 1 / 2] =
        some (b, sampleReporter, heap1) ∧
      (heap1 5).m_reward = some (1 / 2) := by
  refine ⟨rfl, ?_⟩
  obtain ⟨b, heap1, hr, hlast⟩ :=
    (C9_batch_state_eq_sequential sampleReporter sampleHeap [7, 2] [7 / 10, 1 / 2] rfl).2
      sampleReporter_Indexed
  exact ⟨b, heap1, hr, hlast [(7, 7 / 10)] [] 2 (1 / 2) 5 rfl (by simp) rfl⟩

/-! ## The decision entry points -/

/-- The result of `Choose_Action` on an engine whose explorer is `e`. -/
theorem Choose_Action_eq {E : Type} (ext : Externals E) (self : MWTExplorer E) (e : E)
    (h : self.m_explorer = some e) (context : Context) (unique_id : List Nat)
    (log_context : Context) :
    self.Choose_Action ext context unique_id log_context =
      some ((ext.Explorer_Choose_Action e context self.m_action_set
          (MWTExplorer.Compute_Seed ext unique_id (unique_id.length % 2 ^ 32))).1.1.Get_Id,
        { m_explorer := some (ext.Explorer_Choose_Action e context self.m_action_set
            (MWTExplorer.Compute_Seed ext unique_id (unique_id.length % 2 ^ 32))).2
          m_logger :=
            if (ext.Explorer_Choose_Action e context self.m_action_set
                (MWTExplorer.Compute_Seed ext unique_id (unique_id.length % 2 ^ 32))).1.2.2
                = true then
              self.m_logger.Store
                (Interaction.new log_context
                  (ext.Explorer_Choose_Action e context self.m_action_set
                    (MWTExplorer.Compute_Seed ext unique_id
                      (unique_id.length % 2 ^ 32))).1.1
                  (ext.Explorer_Choose_Action e context self.m_action_set
                    (MWTExplorer.Compute_Seed ext unique_id
                      (unique_id.length % 2 ^ 32))).1.2.1
                  (MWTExplorer.Compute_Seed ext unique_id (unique_id.length % 2 ^ 32)))
            else self.m_logger
          m_action_set := self.m_action_set
          m_id := self.m_id }) := by
  unfold MWTExplorer.Choose_Action
  simp only [h]
  cases hlog : (ext.Explorer_Choose_Action e context self.m_action_set
    (MWTExplorer.Compute_Seed ext unique_id (unique_id.length % 2 ^ 32))).1.2.2 <;> simp

/-- The result of `Choose_Action_And_Key` on an engine whose explorer is `e`. -/
theorem Choose_Action_And_Key_eq {E : Type} (ext : Externals E) (self : MWTExplorer E) (e : E)
    (h : self.m_explorer = some e) (context : Context) (log_context : Context) :
    self.Choose_Action_And_Key ext context log_context =
      some (((ext.Explorer_Choose_Action e context self.m_action_set
            (self.m_id % 2 ^ 32)).1.1.Get_Id,
          if (ext.Explorer_Choose_Action e context self.m_action_set
              (self.m_id % 2 ^ 32)).1.2.2 = true then self.m_id else ext.NO_JOIN_KEY),
        { m_explorer := some (ext.Explorer_Choose_Action e context self.m_action_set
            (self.m_id % 2 ^ 32)).2
          m_logger :=
            if (ext.Explorer_Choose_Action e context self.m_action_set
                (self.m_id % 2 ^ 32)).1.2.2 = true then
              self.m_logger.Store
                (Interaction.new log_context
                  (ext.Explorer_Choose_Action e context self.m_action_set
                    (self.m_id % 2 ^ 32)).1.1
                  (ext.Explorer_Choose_Action e context self.m_action_set
                    (self.m_id % 2 ^ 32)).1.2.1
                  self.m_id)
            else self.m_logger
          m_action_set := self.m_action_set
          m_id := (self.m_id + 1) % 2 ^ 64 }) := by
  unfold MWTExplorer.Choose_Action_And_Key
  simp only [h]
  cases hlog : (ext.Explorer_Choose_Action e context self.m_action_set
    (self.m_id % 2 ^ 32)).1.2.2 <;> simp [Interaction.new, Interaction.Get_Id]

/-- One call on an engine with an explorer returns; the engine keeps an explorer and its
action set; the counter advances by one on `Choose_Action_And_Key` and stays on
`Choose_Action`; a join key other than the sentinel is the counter before the call; and the
logger gains at most one Interaction, with the counter as id on `Choose_Action_And_Key`. -/
theorem call_spec {E : Type} (ext : Externals E) (self : MWTExplorer E) (e : E)
    (h : self.m_explorer = some e) (c : Call) :
    ∃ r self1 e1, self.call ext c = some (r, self1) ∧ self1.m_explorer = some e1 ∧
      self1.m_action_set = self.m_action_set ∧
      (keyCalls [c] = 1 → self1.m_id = (self.m_id + 1) % 2 ^ 64) ∧
      (keyCalls [c] = 0 → self1.m_id = self.m_id) ∧
      (∀ k ∈ joinKeys [r], k ≠ ext.NO_JOIN_KEY → k = self.m_id ∧ keyCalls [c] = 1) ∧
      (onlyKeyCalls [c] = true →
        self1.m_logger.ids = self.m_logger.ids ∨
        self1.m_logger.ids = self.m_logger.ids ++ [self.m_id]) := by
  cases c with
  | Choose_Action context unique_id log_context =>
    simp only [MWTExplorer.call, Choose_Action_eq ext self e h, Option.map_some']
    refine ⟨_, _, _, rfl, rfl, rfl, ?_, ?_, ?_, ?_⟩
    · simp [keyCalls]
    · simp [keyCalls]
    · simp [joinKeys]
    · simp [onlyKeyCalls]
  | Choose_Action_And_Key context log_context =>
    simp only [MWTExplorer.call, Choose_Action_And_Key_eq ext self e h, Option.map_some']
    refine ⟨_, _, _, rfl, rfl, rfl, ?_, ?_, ?_, ?_⟩
    · simp [keyCalls]
    · simp [keyCalls]
    · intro k hk hne
      simp only [joinKeys, List.mem_singleton] at hk
      refine ⟨?_, by simp [keyCalls]⟩
      subst hk
      split
      · rfl
      · rename_i hlog
        rw [if_neg hlog] at hne
        exact absurd rfl hne
    · intro _
      simp only [Logger.ids, Logger.Store]
      split
      · right
        simp [Interaction.new, Interaction.Get_Id]
      · left
        rfl

/-- The call `Choose_Action` on an engine with an explorer returns the id of the action the
explorer picks for the hashed seed; the engine keeps an explorer and its action set. -/
theorem Choose_Action_total {E : Type} (ext : Externals E) (self : MWTExplorer E) (e : E)
    (h : self.m_explorer = some e) (context : Context) (unique_id : List Nat)
    (log_context : Context) :
    ∃ a self1 e1, self.Choose_Action ext context unique_id log_context = some (a, self1) ∧
      self1.m_explorer = some e1 ∧ self1.m_action_set = self.m_action_set ∧
      a = (ext.Explorer_Choose_Action e context self.m_action_set
        (MWTExplorer.Compute_Seed ext unique_id (unique_id.length % 2 ^ 32))).1.1.Get_Id :=
  ⟨_, _, _, Choose_Action_eq ext self e h context unique_id log_context, rfl, rfl, rfl⟩

/-! ## Sequences of calls -/

theorem joinKeys_cons (r : Returned) (rs : List Returned) :
    joinKeys (r :: rs) = joinKeys [r] ++ joinKeys rs := by
  cases r <;> simp [joinKeys]

theorem joinKeys_single_length (r : Returned) : (joinKeys [r]).length ≤ 1 := by
  cases r <;> simp [joinKeys]

theorem keyCalls_cons (c : Call) (rest : List Call) :
    keyCalls (c :: rest) = keyCalls [c] + keyCalls rest := by
  cases c <;> simp [keyCalls, Nat.add_comm]

theorem keyCalls_single (c : Call) : keyCalls [c] = 0 ∨ keyCalls [c] = 1 := by
  cases c <;> simp [keyCalls]

theorem onlyKeyCalls_cons (c : Call) (rest : List Call) (h : onlyKeyCalls (c :: rest) = true) :
    onlyKeyCalls [c] = true ∧ keyCalls [c] = 1 ∧ onlyKeyCalls rest = true := by
  cases c with
  | Choose_Action context unique_id log_context => simp [onlyKeyCalls] at h
  | Choose_Action_And_Key context log_context =>
    simp only [onlyKeyCalls] at h
    simp [onlyKeyCalls, keyCalls, h]

theorem nodup_of_length_le_one {α : Type} (l : List α) (h : l.length ≤ 1) : l.Nodup := by
  match l, h with
  | [], _ => exact List.nodup_nil
  | [a], _ => exact List.nodup_singleton a
  | _ :: _ :: _, h => simp at h

/-- A sequence of calls that does not take the counter past `2 ^ 64`: the counter ends at its
start plus the number of `Choose_Action_And_Key` calls; the join keys other than the sentinel
lie between the counter at the start and the counter at the end and are pairwise distinct;
and when all calls are `Choose_Action_And_Key` calls the ids added to the logger do so too. -/
theorem run_counter {E : Type} (ext : Externals E) (calls : List Call) :
    ∀ (self : MWTExplorer E) (e : E), self.m_explorer = some e → self.m_id < 2 ^ 64 →
      self.m_id + keyCalls calls ≤ 2 ^ 64 →
      ∃ rs self1 e1, self.run ext calls = some (rs, self1) ∧ self1.m_explorer = some e1 ∧
        self1.m_action_set = self.m_action_set ∧
        self1.m_id = (self.m_id + keyCalls calls) % 2 ^ 64 ∧
        (∀ k ∈ joinKeys rs, k ≠ ext.NO_JOIN_KEY →
          self.m_id ≤ k ∧ k < self.m_id + keyCalls calls) ∧
        ((joinKeys rs).filter fun k => decide (k ≠ ext.NO_JOIN_KEY)).Nodup ∧
        (onlyKeyCalls calls = true →
          ∃ added, self1.m_logger.ids = self.m_logger.ids ++ added ∧
            (∀ k ∈ added, self.m_id ≤ k ∧ k < self.m_id + keyCalls calls) ∧
            added.Nodup) := by
  induction calls with
  | nil =>
    intro self e h hlt _
    refine ⟨[], self, e, rfl, h, rfl, ?_, ?_, ?_, ?_⟩
    · simp only [keyCalls, Nat.add_zero]
      exact (Nat.mod_eq_of_lt hlt).symm
    · simp [joinKeys]
    · simp [joinKeys]
    · exact fun _ => ⟨[], by simp, by simp, List.nodup_nil⟩
  | cons c rest ih =>
    intro self e h hlt hbound
    rw [keyCalls_cons] at hbound
    obtain ⟨r, self1, e1, hc, he1, has1, hid1, hid0, hkey, hlog⟩ := call_spec ext self e h c
    have hm1 : self1.m_id < 2 ^ 64 ∧ self1.m_id + keyCalls rest ≤ 2 ^ 64 ∧
        (self1.m_id + keyCalls rest) % 2 ^ 64 =
          (self.m_id + (keyCalls [c] + keyCalls rest)) % 2 ^ 64 ∧
        (keyCalls [c] = 1 → ∀ k, self1.m_id ≤ k → k < self1.m_id + keyCalls rest →
          self.m_id < k ∧ k < self.m_id + (keyCalls [c] + keyCalls rest)) ∧
        (keyCalls [c] = 0 → self1.m_id = self.m_id) := by
      rcases keyCalls_single c with h0 | h1
      · have := hid0 h0
        refine ⟨by omega, by omega, by rw [this, h0, Nat.zero_add], ?_, fun _ => this⟩
        intro h1
        omega
      · have := hid1 h1
        refine ⟨by omega, by omega, by omega, ?_, ?_⟩
        · intro _ k hk1 hk2
          omega
        · intro h0
          omega
    obtain ⟨hlt1, hbound1, hmod, hshift, hsame⟩ := hm1
    obtain ⟨rs, self2, e2, hrun, he2, has2, hid2, hkeys2, hnodup2, hlog2⟩ :=
      ih self1 e1 he1 hlt1 hbound1
    refine ⟨r :: rs, self2, e2, by simp [MWTExplorer.run, hc, hrun], he2, has2.trans has1, ?_,
      ?_, ?_, ?_⟩
    · rw [hid2, keyCalls_cons, hmod]
    · intro k hk hne
      rw [joinKeys_cons, List.mem_append] at hk
      rw [keyCalls_cons]
      rcases hk with hk | hk
      · obtain ⟨rfl, h1⟩ := hkey k hk hne
        omega
      · obtain ⟨hk1, hk2⟩ := hkeys2 k hk hne
        rcases keyCalls_single c with h0 | h1
        · have := hsame h0
          omega
        · have := hshift h1 k hk1 hk2
          omega
    · rw [joinKeys_cons, List.filter_append]
      refine List.Nodup.append ?_ hnodup2 ?_
      · exact nodup_of_length_le_one _
          (le_trans (List.length_filter_le _ _) (joinKeys_single_length r))
      · intro k hkA hkB
        rw [List.mem_filter] at hkA hkB
        have hneA : k ≠ ext.NO_JOIN_KEY := by simpa using hkA.2
        obtain ⟨rfl, h1⟩ := hkey k hkA.1 hneA
        obtain ⟨hk1, hk2⟩ := hkeys2 _ hkB.1 hneA
        have := hshift h1 _ hk1 hk2
        omega
    · intro honly
      obtain ⟨honly1, h1, honlyRest⟩ := onlyKeyCalls_cons c rest honly
      obtain ⟨added, hadded, hrange, hnd⟩ := hlog2 honlyRest
      rw [keyCalls_cons]
      rcases hlog honly1 with hl | hl
      · refine ⟨added, by rw [hadded, hl], ?_, hnd⟩
        intro k hk
        obtain ⟨hk1, hk2⟩ := hrange k hk
        have := hshift h1 k hk1 hk2
        omega
      · refine ⟨self.m_id :: added, by rw [hadded, hl]; simp, ?_, ?_⟩
        · intro k hk
          rw [List.mem_cons] at hk
          rcases hk with rfl | hk
          · omega
          · obtain ⟨hk1, hk2⟩ := hrange k hk
            have := hshift h1 k hk1 hk2
            omega
        · refine List.nodup_cons.mpr ⟨?_, hnd⟩
          intro hmem
          obtain ⟨hk1, hk2⟩ := hrange _ hmem
          have := hshift h1 _ hk1 hk2
          omega

/-! ## Reachable explorer states -/

theorem Reachable_trans {E : Type} (ext : Externals E) (actions : ActionSet) (e e1 e2 : E)
    (h1 : ext.Reachable actions e e1) (h2 : ext.Reachable actions e1 e2) :
    ext.Reachable actions e e2 := by
  induction h2 with
  | refl => exact h1
  | step e3 context seed _ ih => exact Externals.Reachable.step e3 context seed ih

/-- One call leaves an explorer object reachable from the one before the call. -/
theorem call_reach {E : Type} (ext : Externals E) (self : MWTExplorer E) (e : E)
    (h : self.m_explorer = some e) (c : Call) :
    ∃ r self1 e1, self.call ext c = some (r, self1) ∧ self1.m_explorer = some e1 ∧
      self1.m_action_set = self.m_action_set ∧ ext.Reachable self.m_action_set e e1 := by
  cases c with
  | Choose_Action context unique_id log_context =>
    simp only [MWTExplorer.call, Choose_Action_eq ext self e h, Option.map_some']
    exact ⟨_, _, _, rfl, rfl, rfl, Externals.Reachable.step _ _ _ Externals.Reachable.refl⟩
  | Choose_Action_And_Key context log_context =>
    simp only [MWTExplorer.call, Choose_Action_And_Key_eq ext self e h, Option.map_some']
    exact ⟨_, _, _, rfl, rfl, rfl, Externals.Reachable.step _ _ _ Externals.Reachable.refl⟩

/-- A sequence of calls leaves an explorer object reachable from the one it started with. -/
theorem run_reach {E : Type} (ext : Externals E) (calls : List Call) :
    ∀ (self : MWTExplorer E) (e : E), self.m_explorer = some e →
      ∃ rs self1 e1, self.run ext calls = some (rs, self1) ∧ self1.m_explorer = some e1 ∧
        self1.m_action_set = self.m_action_set ∧ ext.Reachable self.m_action_set e e1 := by
  induction calls with
  | nil => exact fun self e h => ⟨[], self, e, rfl, h, rfl, Externals.Reachable.refl⟩
  | cons c rest ih =>
    intro self e h
    obtain ⟨r, self1, e1, hc, he1, has1, hreach1⟩ := call_reach ext self e h c
    obtain ⟨rs, self2, e2, hrun, he2, has2, hreach2⟩ := ih self1 e1 he1
    rw [has1] at hreach2
    exact ⟨r :: rs, self2, e2, by simp [MWTExplorer.run, hc, hrun], he2, has2.trans has1,
      Reachable_trans ext _ e e1 e2 hreach1 hreach2⟩

/-- Calls on a Tau-First explorer keep its parameter `tau` and never lower its count of
decisions. -/
theorem tauFirst_reachable (default_policy : Context → Nat) (draw : Nat → Nat → Nat)
    (uniform_hash : List Nat → Nat → Nat → Nat) (NO_JOIN_KEY : Nat) (actions : ActionSet)
    (e e1 : TauFirstExplorer)
    (h : (tauFirstExternals default_policy draw uniform_hash NO_JOIN_KEY).Reachable
      actions e e1) :
    e1.m_tau = e.m_tau ∧ e.m_decisions ≤ e1.m_decisions := by
  induction h with
  | refl => exact ⟨rfl, le_refl _⟩
  | step e2 context seed _ ih =>
    obtain ⟨htau, hdec⟩ := ih
    simp only [tauFirstExternals, TauFirstExplorer.Choose_Action]
    split <;> exact ⟨htau, Nat.le_succ_of_le hdec⟩

/-- Past its boundary a Tau-First explorer returns the default policy's action. -/
theorem tauFirst_past_boundary (default_policy : Context → Nat) (draw : Nat → Nat → Nat)
    (uniform_hash : List Nat → Nat → Nat → Nat) (NO_JOIN_KEY : Nat) (e : TauFirstExplorer)
    (h : e.m_tau ≤ e.m_decisions) (context : Context) (actions : ActionSet) (seed : Nat) :
    ((tauFirstExternals default_policy draw uniform_hash NO_JOIN_KEY).Explorer_Choose_Action
      e context actions seed).1.1 = { m_id := default_policy context } := by
  simp only [tauFirstExternals, TauFirstExplorer.Choose_Action]
  rw [if_neg (by omega)]

/-! ## What each call stores -/

/-- One call on an engine with an explorer appends at most one Interaction to the logger; on
`Choose_Action_And_Key` its id is the counter before the call. -/
theorem call_stored {E : Type} (ext : Externals E) (self : MWTExplorer E) (e : E)
    (h : self.m_explorer = some e) (c : Call) :
    ∃ r self1 e1 stored, self.call ext c = some (r, self1) ∧ self1.m_explorer = some e1 ∧
      self1.m_logger.m_interactions = self.m_logger.m_interactions ++ stored ∧
      (keyCalls [c] = 1 → self1.m_id = (self.m_id + 1) % 2 ^ 64) ∧
      (keyCalls [c] = 0 → self1.m_id = self.m_id) ∧
      (keyCalls [c] = 1 → ∀ i ∈ stored, i.Get_Id = self.m_id) ∧
      stored.length ≤ 1 := by
  cases c with
  | Choose_Action context unique_id log_context =>
    simp only [MWTExplorer.call, Choose_Action_eq ext self e h, Option.map_some']
    generalize MWTExplorer.Compute_Seed ext unique_id (unique_id.length % 2 ^ 32) = seed
    generalize ext.Explorer_Choose_Action e context self.m_action_set seed = t
    by_cases hlog : t.1.2.2 = true
    · refine ⟨_, _, _, [Interaction.new log_context t.1.1 t.1.2.1 seed], rfl, rfl, ?_, ?_, ?_,
        ?_, by simp⟩
      · simp only [if_pos hlog, Logger.Store]
      · simp [keyCalls]
      · simp [keyCalls]
      · simp [keyCalls]
    · refine ⟨_, _, _, [], rfl, rfl, ?_, ?_, ?_, ?_, by simp⟩
      · simp only [if_neg hlog, List.append_nil]
      · simp [keyCalls]
      · simp [keyCalls]
      · simp [keyCalls]
  | Choose_Action_And_Key context log_context =>
    simp only [MWTExplorer.call, Choose_Action_And_Key_eq ext self e h, Option.map_some']
    generalize ext.Explorer_Choose_Action e context self.m_action_set (self.m_id % 2 ^ 32) = t
    by_cases hlog : t.1.2.2 = true
    · refine ⟨_, _, _, [Interaction.new log_context t.1.1 t.1.2.1 self.m_id], rfl, rfl, ?_, ?_,
        ?_, ?_, by simp⟩
      · simp only [if_pos hlog, Logger.Store]
      · simp [keyCalls]
      · simp [keyCalls]
      · intro _ i hi
        rw [List.mem_singleton] at hi
        rw [hi]
        rfl
    · refine ⟨_, _, _, [], rfl, rfl, ?_, ?_, ?_, ?_, by simp⟩
      · simp only [if_neg hlog, List.append_nil]
      · simp [keyCalls]
      · simp [keyCalls]
      · simp

theorem keyStoredIds_cons (c : Call) (stored : List Interaction)
    (tr : List (Call × List Interaction)) :
    (keyCalls [c] = 0 ∧ keyStoredIds ((c, stored) :: tr) = keyStoredIds tr) ∨
    (keyCalls [c] = 1 ∧
      keyStoredIds ((c, stored) :: tr) = stored.map Interaction.Get_Id ++ keyStoredIds tr) := by
  cases c <;> simp [keyCalls, keyStoredIds]

/-- The recording run and the plain run end in the same engine. -/
theorem runStored_run {E : Type} (ext : Externals E) (calls : List Call) :
    ∀ (self : MWTExplorer E),
      (self.runStored ext calls).map Prod.snd = (self.run ext calls).map Prod.snd := by
  induction calls with
  | nil => exact fun self => rfl
  | cons c rest ih =>
    intro self
    simp only [MWTExplorer.runStored, MWTExplorer.run]
    cases hc : self.call ext c with
    | none => rfl
    | some t =>
      obtain ⟨r, self1⟩ := t
      have := ih self1
      simp only
      cases h1 : self1.runStored ext rest with
      | none =>
        cases h2 : self1.run ext rest with
        | none => rfl
        | some t2 => rw [h1, h2] at this; cases this
      | some t1 =>
        cases h2 : self1.run ext rest with
        | none => rw [h1, h2] at this; cases this
        | some t2 =>
          rw [h1, h2] at this
          simpa using this

/-- A sequence of calls that does not take the counter past `2 ^ 64`: the recording run
returns a record of every call; the logger ends as it started followed by everything
recorded; and the ids recorded next to `Choose_Action_And_Key` calls lie between the counter
at the start and the counter at the end and are pairwise distinct. -/
theorem runStored_counter {E : Type} (ext : Externals E) (calls : List Call) :
    ∀ (self : MWTExplorer E) (e : E), self.m_explorer = some e → self.m_id < 2 ^ 64 →
      self.m_id + keyCalls calls ≤ 2 ^ 64 →
      ∃ tr self1, self.runStored ext calls = some (tr, self1) ∧
        tr.map Prod.fst = calls ∧
        self1.m_logger.m_interactions = self.m_logger.m_interactions ++ allStored tr ∧
        (∀ k ∈ keyStoredIds tr, self.m_id ≤ k ∧ k < self.m_id + keyCalls calls) ∧
        (keyStoredIds tr).Nodup := by
  induction calls with
  | nil =>
    intro self e h _ _
    exact ⟨[], self, rfl, rfl, by simp [allStored], by simp [keyStoredIds],
      by simp [keyStoredIds]⟩
  | cons c rest ih =>
    intro self e h hlt hbound
    rw [keyCalls_cons] at hbound
    obtain ⟨r, self1, e1, stored, hc, he1, hstored, hid1, hid0, hids, hlen⟩ :=
      call_stored ext self e h c
    have hm1 : self1.m_id < 2 ^ 64 ∧ self1.m_id + keyCalls rest ≤ 2 ^ 64 ∧
        (keyCalls [c] = 1 → ∀ k, self1.m_id ≤ k → k < self1.m_id + keyCalls rest →
          self.m_id < k ∧ k < self.m_id + (keyCalls [c] + keyCalls rest)) ∧
        (keyCalls [c] = 0 → self1.m_id = self.m_id) := by
      rcases keyCalls_single c with h0 | h1
      · have := hid0 h0
        exact ⟨by omega, by omega, fun h1 => by omega, fun _ => this⟩
      · have := hid1 h1
        refine ⟨by omega, by omega, ?_, fun h0 => by omega⟩
        intro _ k hk1 hk2
        omega
    obtain ⟨hlt1, hbound1, hshift, hsame⟩ := hm1
    obtain ⟨tr, self2, hrun, hcalls, hlogger, hrange, hnd⟩ := ih self1 e1 he1 hlt1 hbound1
    have hdrop : self1.m_logger.m_interactions.drop self.m_logger.m_interactions.length =
        stored := by
      rw [hstored, List.drop_left]
    refine ⟨(c, stored) :: tr, self2, by simp [MWTExplorer.runStored, hc, hrun, hdrop],
      by simp [hcalls], by simp [allStored, hlogger, hstored], ?_, ?_⟩
    · intro k hk
      rw [keyCalls_cons]
      rcases keyStoredIds_cons c stored tr with ⟨h0, heq⟩ | ⟨h1, heq⟩
      · rw [heq] at hk
        obtain ⟨hk1, hk2⟩ := hrange k hk
        have := hsame h0
        omega
      · rw [heq, List.mem_append, List.mem_map] at hk
        rcases hk with ⟨i, hi, rfl⟩ | hk
        · rw [hids h1 i hi]
          omega
        · obtain ⟨hk1, hk2⟩ := hrange k hk
          have := hshift h1 k hk1 hk2
          omega
    · rcases keyStoredIds_cons c stored tr with ⟨_, heq⟩ | ⟨h1, heq⟩
      · rw [heq]
        exact hnd
      · rw [heq]
        refine List.Nodup.append ?_ hnd ?_
        · exact nodup_of_length_le_one _ (by simpa using hlen)
        · intro k hkA hkB
          rw [List.mem_map] at hkA
          obtain ⟨i, hi, rfl⟩ := hkA
          obtain ⟨hk1, hk2⟩ := hrange _ hkB
          have := hshift h1 _ hk1 hk2
          rw [hids h1 i hi] at this
          omega

/-! ## Claims on the engine -/

/-- C4: on a freshly constructed and initialised engine, any sequence of calls holding fewer
than `2 ^ 64` `Choose_Action_And_Key` calls (with `Choose_Action` calls in between or not, and
whatever the explorer returns) runs to its end, and the join keys it returns, the sentinel
`NO_JOIN_KEY` left out, are pairwise distinct. -/
theorem C4_join_keys_distinct {E : Type} (ext : Externals E) (explorer : E)
    (num_actions : Nat) (calls : List Call) (h : keyCalls calls < 2 ^ 64) :
    ∃ rs self,
      ((MWTExplorer.new : MWTExplorer E).Initialize explorer num_actions).run ext calls =
        some (rs, self) ∧
      ((joinKeys rs).filter fun k => decide (k ≠ ext.NO_JOIN_KEY)).Nodup := by
  obtain ⟨rs, self, _, hrun, _, _, _, _, hnodup, _⟩ :=
    run_counter ext calls ((MWTExplorer.new : MWTExplorer E).Initialize explorer num_actions)
      explorer rfl (by simp [MWTExplorer.new, MWTExplorer.Initialize])
      (by simp only [MWTExplorer.new, MWTExplorer.Initialize]; omega)
  exact ⟨rs, self, hrun, hnodup⟩

/-- C4 at the sample calls on a Tau-First engine with `tau = 5`, where every decision is
logged: the three `Choose_Action_And_Key` calls return the join keys `0`, `1` and `2`, none of
them the sentinel `2 ^ 64 - 1`. -/
theorem C4_join_keys_distinct_witness :
    keyCalls sampleCalls < 2 ^ 64 ∧
    ∃ rs self, (sampleTauEngine 5).run sampleTauFirst sampleCalls = some (rs, self) ∧
      joinKeys rs = [0, 1, 2] ∧
      (joinKeys rs).filter (fun k => decide (k ≠ sampleTauFirst.NO_JOIN_KEY)) = [0, 1, 2] ∧
      ((joinKeys rs).filter fun k => decide (k ≠ sampleTauFirst.NO_JOIN_KEY)).Nodup := by
  obtain ⟨rs, self, hrun, hnd⟩ :=
    C4_join_keys_distinct sampleTauFirst { m_tau := 5, m_decisions := 0 } 2 sampleCalls
      (by decide)
  have hev : (sampleTauEngine 5).run sampleTauFirst sampleCalls = some (_, _) := rfl
  have hrun1 : (sampleTauEngine 5).run sampleTauFirst sampleCalls = some (rs, self) := hrun
  rw [hev] at hrun1
  simp only [Option.some.injEq, Prod.mk.injEq] at hrun1
  obtain ⟨hrs, hself⟩ := hrun1
  subst hrs
  subst hself
  exact ⟨by decide, _, _, hev, rfl, by decide, hnd⟩

/-- C5, amended: when the action the explorer picks for the given context and for the seed
hashed from the given unique id is the same in every state the explorer object can reach from
its present state (so for a stateless strategy, and for Tau-First at or past its boundary),
two `Choose_Action` calls on one engine with that context and that unique id return the same
action id, whatever calls are made in between. -/
theorem C5_same_action_on_reachable_states {E : Type} (ext : Externals E)
    (self : MWTExplorer E) (e : E) (he : self.m_explorer = some e) (context : Context)
    (unique_id : List Nat)
    (hsame : ∀ e1 e2, ext.Reachable self.m_action_set e e1 →
      ext.Reachable self.m_action_set e e2 →
      (ext.Explorer_Choose_Action e1 context self.m_action_set
          (MWTExplorer.Compute_Seed ext unique_id (unique_id.length % 2 ^ 32))).1.1 =
        (ext.Explorer_Choose_Action e2 context self.m_action_set
          (MWTExplorer.Compute_Seed ext unique_id (unique_id.length % 2 ^ 32))).1.1)
    (between : List Call) (log_context1 log_context2 : Context) :
    ∃ a self1 rs self2 self3,
      self.Choose_Action ext context unique_id log_context1 = some (a, self1) ∧
      self1.run ext between = some (rs, self2) ∧
      self2.Choose_Action ext context unique_id log_context2 = some (a, self3) := by
  obtain ⟨r1, self1, e1, hc1, he1, has1, hreach1⟩ :=
    call_reach ext self e he (Call.Choose_Action context unique_id log_context1)
  obtain ⟨a, self1a, _, h1, _, _, ha⟩ :=
    Choose_Action_total ext self e he context unique_id log_context1
  have hself1 : self1a = self1 := by
    simp only [MWTExplorer.call, h1, Option.map_some', Option.some.injEq,
      Prod.mk.injEq] at hc1
    exact hc1.2
  subst hself1
  obtain ⟨rs, self2, e2, hrun, he2, has2, hreach2⟩ := run_reach ext between self1a e1 he1
  rw [has1] at hreach2
  obtain ⟨a2, self3, _, h2, _, _, ha2⟩ :=
    Choose_Action_total ext self2 e2 he2 context unique_id log_context2
  refine ⟨a, self1a, rs, self2, self3, h1, hrun, ?_⟩
  rw [h2, ha2, ha, has2, has1,
    hsame e2 e (Reachable_trans ext _ e e1 e2 hreach1 hreach2) Externals.Reachable.refl]

/-- C5, amended, at a Tau-First engine with `tau = 0`, which is past its boundary from the
first call: with the sample calls in between, both `Choose_Action` calls return the default
policy's action `0`. -/
theorem C5_same_action_on_reachable_states_witness :
    (sampleTauEngine 0).m_explorer = some { m_tau := 0, m_decisions := 0 } ∧
    (∀ e1 e2,
      sampleTauFirst.Reachable (sampleTauEngine 0).m_action_set
        { m_tau := 0, m_decisions := 0 } e1 →
      sampleTauFirst.Reachable (sampleTauEngine 0).m_action_set
        { m_tau := 0, m_decisions := 0 } e2 →
      (sampleTauFirst.Explorer_Choose_Action e1 [4] (sampleTauEngine 0).m_action_set
          (MWTExplorer.Compute_Seed sampleTauFirst [1, 2] ([1, 2].length % 2 ^ 32))).1.1 =
        (sampleTauFirst.Explorer_Choose_Action e2 [4] (sampleTauEngine 0).m_action_set
          (MWTExplorer.Compute_Seed sampleTauFirst [1, 2] ([1, 2].length % 2 ^ 32))).1.1) ∧
    ∃ self1 rs self2 self3,
      (sampleTauEngine 0).Choose_Action sampleTauFirst [4] [1, 2] [4] = some (0, self1) ∧
      self1.run sampleTauFirst sampleCalls = some (rs, self2) ∧
      self2.Choose_Action sampleTauFirst [4] [1, 2] [4] = some (0, self3) := by
  have hsame : ∀ e1 e2,
      sampleTauFirst.Reachable (sampleTauEngine 0).m_action_set
        { m_tau := 0, m_decisions := 0 } e1 →
      sampleTauFirst.Reachable (sampleTauEngine 0).m_action_set
        { m_tau := 0, m_decisions := 0 } e2 →
      (sampleTauFirst.Explorer_Choose_Action e1 [4] (sampleTauEngine 0).m_action_set
          (MWTExplorer.Compute_Seed sampleTauFirst [1, 2] ([1, 2].length % 2 ^ 32))).1.1 =
        (sampleTauFirst.Explorer_Choose_Action e2 [4] (sampleTauEngine 0).m_action_set
          (MWTExplorer.Compute_Seed sampleTauFirst [1, 2] ([1, 2].length % 2 ^ 32))).1.1 := by
    intro e1 e2 h1 h2
    have t1 := (tauFirst_reachable _ _ _ _ _ _ e1 h1).1
    have t2 := (tauFirst_reachable _ _ _ _ _ _ e2 h2).1
    have p1 := tauFirst_past_boundary (fun _ => 0) (fun seed count => seed % count)
      sampleHash (2 ^ 64 - 1) e1 (by rw [t1]; exact Nat.zero_le _) [4]
      (sampleTauEngine 0).m_action_set
      (MWTExplorer.Compute_Seed sampleTauFirst [1, 2] ([1, 2].length % 2 ^ 32))
    have p2 := tauFirst_past_boundary (fun _ => 0) (fun seed count => seed % count)
      sampleHash (2 ^ 64 - 1) e2 (by rw [t2]; exact Nat.zero_le _) [4]
      (sampleTauEngine 0).m_action_set
      (MWTExplorer.Compute_Seed sampleTauFirst [1, 2] ([1, 2].length % 2 ^ 32))
    exact p1.trans p2.symm
  obtain ⟨a, self1, rs, self2, self3, h1, hrun, h2⟩ :=
    C5_same_action_on_reachable_states sampleTauFirst (sampleTauEngine 0)
      { m_tau := 0, m_decisions := 0 } rfl [4] [1, 2] hsame sampleCalls [4] [4]
  have hev : (sampleTauEngine 0).Choose_Action sampleTauFirst [4] [1, 2] [4] = some (0, _) :=
    rfl
  have ha : a = 0 := by
    rw [hev] at h1
    simp only [Option.some.injEq, Prod.mk.injEq] at h1
    exact h1.1.symm
  subst ha
  exact ⟨rfl, hsame, self1, rs, self2, self3, h1, hrun, h2⟩

/-- C5 as stated fails for Tau-First with `tau = 1` over two actions: two consecutive
`Choose_Action` calls with the same context and the same unique id return action `1` (the
draw) and then action `0` (the default policy). And this does not hang on the hash or on the
draw: for no hash and no draw do the two calls agree for every default policy. -/
theorem C5_tau_first_counterexample :
    (∃ self1 self2,
      (sampleTauEngine 1).Choose_Action sampleTauFirst [] [1] [] = some (1, self1) ∧
      self1.Choose_Action sampleTauFirst [] [1] [] = some (0, self2)) ∧
    ¬ ∃ (uniform_hash : List Nat → Nat → Nat → Nat) (draw : Nat → Nat → Nat),
      ∀ (default_policy : Context → Nat) a1 self1 a2 self2,
        (sampleTauEngine 1).Choose_Action
            (tauFirstExternals default_policy draw uniform_hash 0) [] [1] [] =
          some (a1, self1) →
        self1.Choose_Action (tauFirstExternals default_policy draw uniform_hash 0) [] [1] [] =
          some (a2, self2) →
        a1 = a2 := by
  refine ⟨⟨_, _, rfl, rfl⟩, ?_⟩
  rintro ⟨uniform_hash, draw, hall⟩
  have h0 : draw (uniform_hash [1] 1 0 % 2 ^ 32) 2 = 0 :=
    hall (fun _ => 0) _ _ _ _ rfl rfl
  have h1 : draw (uniform_hash [1] 1 0 % 2 ^ 32) 2 = 1 :=
    hall (fun _ => 1) _ _ _ _ rfl rfl
  rw [h0] at h1
  exact absurd h1 (by decide)

/-- C6: on an engine with an explorer, when the explorer's decision for the call has
`should_log = false`, `Choose_Action_And_Key` returns the explorer's action id with
`NO_JOIN_KEY` and `Choose_Action` returns the explorer's action id, and in both cases the
logger holds the same Interactions after the call as before. -/
theorem C6_no_log_no_store {E : Type} (ext : Externals E) (self : MWTExplorer E) (e : E)
    (he : self.m_explorer = some e) (context log_context : Context) (unique_id : List Nat) :
    ((ext.Explorer_Choose_Action e context self.m_action_set (self.m_id % 2 ^ 32)).1.2.2
        = false →
      ∃ self1, self.Choose_Action_And_Key ext context log_context =
          some (((ext.Explorer_Choose_Action e context self.m_action_set
            (self.m_id % 2 ^ 32)).1.1.Get_Id, ext.NO_JOIN_KEY), self1) ∧
        self1.m_logger = self.m_logger) ∧
    ((ext.Explorer_Choose_Action e context self.m_action_set
        (MWTExplorer.Compute_Seed ext unique_id (unique_id.length % 2 ^ 32))).1.2.2 = false →
      ∃ self1, self.Choose_Action ext context unique_id log_context =
          some ((ext.Explorer_Choose_Action e context self.m_action_set
            (MWTExplorer.Compute_Seed ext unique_id
              (unique_id.length % 2 ^ 32))).1.1.Get_Id, self1) ∧
        self1.m_logger = self.m_logger) := by
  constructor
  · intro hlog
    rw [Choose_Action_And_Key_eq ext self e he]
    simp only [hlog]
    exact ⟨_, rfl, rfl⟩
  · intro hlog
    rw [Choose_Action_eq ext self e he]
    simp only [hlog]
    exact ⟨_, rfl, rfl⟩

/-- C6 at a Tau-First engine with `tau = 0`, which is past its boundary from the first call:
both entry points return the default policy's action `0` and the logger stays empty. -/
theorem C6_no_log_no_store_witness :
    (sampleTauEngine 0).m_explorer = some { m_tau := 0, m_decisions := 0 } ∧
    (∃ self1, (sampleTauEngine 0).Choose_Action_And_Key sampleTauFirst [] [] =
        some ((0, 2 ^ 64 - 1), self1) ∧ self1.m_logger.m_interactions = []) ∧
    (∃ self1, (sampleTauEngine 0).Choose_Action sampleTauFirst [] [1] [] =
        some (0, self1) ∧ self1.m_logger.m_interactions = []) := by
  have h := C6_no_log_no_store sampleTauFirst (sampleTauEngine 0)
    { m_tau := 0, m_decisions := 0 } rfl [] [] [1]
  obtain ⟨s1, h1, hl1⟩ := h.1 rfl
  obtain ⟨s2, h2, hl2⟩ := h.2 rfl
  exact ⟨rfl, ⟨s1, h1, by rw [hl1]; rfl⟩, ⟨s2, h2, by rw [hl2]; rfl⟩⟩

/-- C7: on an engine whose explorer is `e`, `Choose_Action(context, unique_id, log_context)`
computes `seed = uniform_hash(unique_id, length, 0)` as a `u32`, where `length` is the size of
`unique_id` as a `u32`; calls the explorer once, on `e` with that seed, and keeps the explorer
object that call leaves; returns the id of the action the explorer chose; and when
`should_log` is true appends to the logger exactly one Interaction, carrying that seed as id,
the explorer's action and the explorer's probability (when `should_log` is false the logger is
as before). For a `unique_id` shorter than `2 ^ 32` and a hash within `u32` the seed is
`uniform_hash(unique_id, size, 0)` itself. -/
theorem C7_Choose_Action_seed_and_log {E : Type} (ext : Externals E) (self : MWTExplorer E)
    (e : E) (he : self.m_explorer = some e) (context : Context) (unique_id : List Nat)
    (log_context : Context) :
    ∃ seed r,
      seed = ext.uniform_hash unique_id (unique_id.length % 2 ^ 32) 0 % 2 ^ 32 ∧
      r = ext.Explorer_Choose_Action e context self.m_action_set seed ∧
      self.Choose_Action ext context unique_id log_context =
        some (r.1.1.Get_Id,
          { m_explorer := some r.2
            m_logger :=
              if r.1.2.2 = true then
                { m_interactions := self.m_logger.m_interactions ++
                    [{ m_context := log_context, m_action := r.1.1, m_prob := r.1.2.1,
                       m_id := seed, m_reward := none }] }
              else self.m_logger
            m_action_set := self.m_action_set
            m_id := self.m_id }) ∧
      (unique_id.length < 2 ^ 32 → ext.uniform_hash unique_id unique_id.length 0 < 2 ^ 32 →
        seed = ext.uniform_hash unique_id unique_id.length 0) := by
  refine ⟨_, _, rfl, rfl, ?_, ?_⟩
  · rw [Choose_Action_eq ext self e he]
    rfl
  · intro hlen hhash
    rw [Nat.mod_eq_of_lt hlen, Nat.mod_eq_of_lt hhash]

/-- C7 at the sample engine: the unique id `[1, 2]` hashes to seed `3`, the explorer picks
action `3 % 2 = 1` with probability `1 / 2`, and one Interaction with id `3` is logged. -/
theorem C7_Choose_Action_seed_and_log_witness :
    sampleEngine.m_explorer = some () ∧
    ∃ self1, sampleEngine.Choose_Action sampleExternals [4] [1, 2] [4] = some (1, self1) ∧
      self1.m_logger.m_interactions =
        [{ m_context := [4], m_action := { m_id := 1 }, m_prob := 1 / (2 : ℚ), m_id := 3,
           m_reward := none }] := by
  obtain ⟨seed, r, hseed, hr, hcall, _⟩ :=
    C7_Choose_Action_seed_and_log sampleExternals sampleEngine () rfl [4] [1, 2] [4]
  have hs : seed = 3 := by rw [hseed]; rfl
  subst hs
  subst hr
  exact ⟨rfl, _, hcall, rfl⟩

/-- C8, amended: on a freshly constructed and initialised engine, any sequence of
`Choose_Action` and `Choose_Action_And_Key` calls holding fewer than `2 ^ 64`
`Choose_Action_And_Key` calls runs to its end; the logger then holds the Interactions the
calls stored, in call order; and the Interactions stored by `Choose_Action_And_Key` calls
have pairwise distinct ids. When the sequence holds no `Choose_Action` call, all ids in the
logger are pairwise distinct. -/
theorem C8_key_stored_ids_distinct {E : Type} (ext : Externals E) (explorer : E)
    (num_actions : Nat) (calls : List Call) (h : keyCalls calls < 2 ^ 64) :
    ∃ tr rs self,
      ((MWTExplorer.new : MWTExplorer E).Initialize explorer num_actions).runStored ext calls =
        some (tr, self) ∧
      ((MWTExplorer.new : MWTExplorer E).Initialize explorer num_actions).run ext calls =
        some (rs, self) ∧
      tr.map Prod.fst = calls ∧
      self.m_logger.m_interactions = allStored tr ∧
      (keyStoredIds tr).Nodup ∧
      (onlyKeyCalls calls = true → self.m_logger.ids.Nodup) := by
  obtain ⟨tr, self, hst, hcalls, hlogger, _, hnd⟩ :=
    runStored_counter ext calls
      ((MWTExplorer.new : MWTExplorer E).Initialize explorer num_actions)
      explorer rfl (by simp [MWTExplorer.new, MWTExplorer.Initialize])
      (by simp only [MWTExplorer.new, MWTExplorer.Initialize]; omega)
  obtain ⟨rs, self1, _, hrun, _, _, _, _, _, hlog⟩ :=
    run_counter ext calls ((MWTExplorer.new : MWTExplorer E).Initialize explorer num_actions)
      explorer rfl (by simp [MWTExplorer.new, MWTExplorer.Initialize])
      (by simp only [MWTExplorer.new, MWTExplorer.Initialize]; omega)
  have hself : self = self1 := by
    have := runStored_run ext calls
      ((MWTExplorer.new : MWTExplorer E).Initialize explorer num_actions)
    rw [hst, hrun] at this
    simpa using this
  subst hself
  refine ⟨tr, rs, self, hst, hrun, hcalls, ?_, hnd, ?_⟩
  · rw [hlogger]
    simp [MWTExplorer.new, MWTExplorer.Initialize]
  · intro honly
    obtain ⟨added, hadded, _, hnd2⟩ := hlog honly
    rw [hadded]
    simpa [MWTExplorer.new, MWTExplorer.Initialize, Logger.ids] using hnd2

/-- C8, amended, at the sample calls on a Tau-First engine with `tau = 5`, where every
decision is logged: the three `Choose_Action_And_Key` calls store the ids `0`, `1`, `2`, and
the `Choose_Action` call between them stores the id `1` again, so the logger holds the ids
`0, 1, 1, 2`. -/
theorem C8_key_stored_ids_distinct_witness :
    keyCalls sampleCalls < 2 ^ 64 ∧
    ∃ tr self, (sampleTauEngine 5).runStored sampleTauFirst sampleCalls = some (tr, self) ∧
      keyStoredIds tr = [0, 1, 2] ∧ (keyStoredIds tr).Nodup ∧
      self.m_logger.ids = [0, 1, 1, 2] := by
  obtain ⟨tr, rs, self, hst, _, _, _, hnd, _⟩ :=
    C8_key_stored_ids_distinct sampleTauFirst { m_tau := 5, m_decisions := 0 } 2 sampleCalls
      (by decide)
  have hev : (sampleTauEngine 5).runStored sampleTauFirst sampleCalls = some (_, _) := rfl
  have hst1 : (sampleTauEngine 5).runStored sampleTauFirst sampleCalls = some (tr, self) := hst
  rw [hev] at hst1
  simp only [Option.some.injEq, Prod.mk.injEq] at hst1
  obtain ⟨htr, hself⟩ := hst1
  subst htr
  subst hself
  exact ⟨by decide, _, _, hev, rfl, hnd, rfl⟩

/-- C8 as stated fails: two `Choose_Action` calls with the same unique id on an engine whose
explorer logs every decision hand the logger two Interactions with the same id (here `1`,
twice). And this does not hang on the hash: for no hash are the two logged ids distinct. -/
theorem C8_same_unique_id_counterexample :
    (∃ rs self, sampleEngine.run sampleExternals
        [Call.Choose_Action [] [1] [], Call.Choose_Action [] [1] []] = some (rs, self) ∧
      self.m_logger.ids = [1, 1] ∧ ¬ self.m_logger.ids.Nodup) ∧
    ¬ ∃ (uniform_hash : List Nat → Nat → Nat → Nat),
      ∀ rs self, sampleEngine.run { sampleExternals with uniform_hash := uniform_hash }
          [Call.Choose_Action [] [1] [], Call.Choose_Action [] [1] []] = some (rs, self) →
        self.m_logger.ids.Nodup := by
  refine ⟨⟨_, _, rfl, rfl, by decide⟩, ?_⟩
  rintro ⟨uniform_hash, hall⟩
  have h : [uniform_hash [1] 1 0 % 2 ^ 32, uniform_hash [1] 1 0 % 2 ^ 32].Nodup :=
    hall _ _ rfl
  simp at h

/-- C10: the counter of a freshly constructed engine is `0`. After initialisation and any
sequence of calls holding `k < 2 ^ 64` `Choose_Action_And_Key` calls (`Choose_Action` calls do
not count), the counter is `k`, and the next `Choose_Action_And_Key` call invokes the explorer
with seed `k % 2 ^ 32`, returns the explorer's action id, advances the counter by one (modulo
`2 ^ 64`) logged or not, and, when `should_log` is true, appends an Interaction with id `k`,
the explorer's action and probability, and returns join key `k` (otherwise `NO_JOIN_KEY`, the
logger as before); a `Choose_Action` call at that point leaves the counter at `k`. -/
theorem C10_counter_is_call_index {E : Type} (ext : Externals E) (explorer : E)
    (num_actions : Nat) (calls : List Call) (context log_context : Context)
    (h : keyCalls calls < 2 ^ 64) :
    (MWTExplorer.new : MWTExplorer E).m_id = 0 ∧
    ∃ rs self e r,
      ((MWTExplorer.new : MWTExplorer E).Initialize explorer num_actions).run ext calls =
        some (rs, self) ∧
      self.m_explorer = some e ∧
      self.m_id = keyCalls calls ∧
      r = ext.Explorer_Choose_Action e context { m_count := num_actions }
        (keyCalls calls % 2 ^ 32) ∧
      self.Choose_Action_And_Key ext context log_context =
        some ((r.1.1.Get_Id, if r.1.2.2 = true then keyCalls calls else ext.NO_JOIN_KEY),
          { m_explorer := some r.2
            m_logger :=
              if r.1.2.2 = true then
                { m_interactions := self.m_logger.m_interactions ++
                    [{ m_context := log_context, m_action := r.1.1, m_prob := r.1.2.1,
                       m_id := keyCalls calls, m_reward := none }] }
              else self.m_logger
            m_action_set := { m_count := num_actions }
            m_id := (keyCalls calls + 1) % 2 ^ 64 }) ∧
      ∀ context2 unique_id log_context2, ∃ a self1,
        self.Choose_Action ext context2 unique_id log_context2 = some (a, self1) ∧
        self1.m_id = keyCalls calls := by
  refine ⟨rfl, ?_⟩
  obtain ⟨rs, self, e, hrun, he, has, hid, _⟩ :=
    run_counter ext calls ((MWTExplorer.new : MWTExplorer E).Initialize explorer num_actions)
      explorer rfl (by simp [MWTExplorer.new, MWTExplorer.Initialize])
      (by simp only [MWTExplorer.new, MWTExplorer.Initialize]; omega)
  have hm : self.m_id = keyCalls calls := by
    rw [hid]
    simp only [MWTExplorer.new, MWTExplorer.Initialize, Nat.zero_add]
    exact Nat.mod_eq_of_lt h
  have hset : self.m_action_set = { m_count := num_actions } := by
    rw [has]
    rfl
  refine ⟨rs, self, e, _, hrun, he, hm, rfl, ?_, ?_⟩
  · rw [Choose_Action_And_Key_eq ext self e he, hm, hset]
    rfl
  · intro context2 unique_id log_context2
    refine ⟨_, _, Choose_Action_eq ext self e he context2 unique_id log_context2, hm⟩

/-- C10 at the sample calls on a Tau-First engine with `tau = 5`: after three
`Choose_Action_And_Key` calls (and one `Choose_Action` call in between) the counter is `3`,
and the next `Choose_Action_And_Key` call returns join key `3`. -/
theorem C10_counter_is_call_index_witness :
    keyCalls sampleCalls < 2 ^ 64 ∧
    ∃ rs self, (sampleTauEngine 5).run sampleTauFirst sampleCalls = some (rs, self) ∧
      self.m_id = 3 ∧
      ∃ self1, self.Choose_Action_And_Key sampleTauFirst [] [] = some ((1, 3), self1) ∧
        self1.m_id = 4 := by
  obtain ⟨_, rs, self, e, r, hrun, he, hm, hr, hcall, _⟩ :=
    C10_counter_is_call_index sampleTauFirst { m_tau := 5, m_decisions := 0 } 2 sampleCalls
      [] [] (by decide)
  have hev : (sampleTauEngine 5).run sampleTauFirst sampleCalls = some (_, _) := rfl
  have hrun1 : (sampleTauEngine 5).run sampleTauFirst sampleCalls = some (rs, self) := hrun
  rw [hev] at hrun1
  simp only [Option.some.injEq, Prod.mk.injEq] at hrun1
  obtain ⟨_, hself⟩ := hrun1
  subst hself
  injection he with he
  subst he
  subst hr
  exact ⟨by decide, _, _, hev, rfl, _, hcall, rfl⟩

end MWT
